import Mathlib

/-!
Verification of the core text pipeline of the Sinhala accounting-standards
QA bot: the document chunker (`src/utils/document_processor.py`) and the
transliteration normalizer (`src/utils/sinhala_transliterator.py`).

Strings are embedded as `List Char`; every function below is a direct
translation of the corresponding Python method.  Python regular-expression
character classes (`\s`, `\w`, `\d`) are modelled over the character
domain the program actually handles (ASCII plus the Sinhala Unicode
block U+0D80 to U+0DFF): in CPython, `\w` means `str.isalnum` or an
underscore, and `str.isalpha` holds only for the letter categories
Lu/Ll/Lt/Lm/Lo, so within the Sinhala block exactly the letters (Lo)
and the lith digits (Nd) are word characters, while every combining
mark — the dependent vowel signs, the al-lakuna (virama, U+0DCA), the
anusvaraya/visargaya — as well as the kunddaliya (U+0DF4) and the
zero-width joiner (U+200D) are not.
-/

namespace SinhalaBot

/-- Python `\s` / `str.split()` / `str.strip()` whitespace, restricted to the
ASCII range that can occur in this program's data. -/
def isPySpace (c : Char) : Bool :=
  c = ' ' || c = '\t' || c = '\n' || c = '\r' || c = '\u000b' || c = '\u000c'

/-- A character of the Sinhala Unicode block, i.e. the regex class
`[඀-෿]` used by both source files. -/
def isSinhalaChar (c : Char) : Bool :=
  0x0D80 ≤ c.toNat && c.toNat ≤ 0x0DFF

/-- ASCII word characters of Python's `\w`: the ranges `a`-`z`, `A`-`Z`,
`0`-`9` and the underscore. -/
def isAsciiWordChar (c : Char) : Bool :=
  let n := c.toNat
  (97 ≤ n && n ≤ 122) || (65 ≤ n && n ≤ 90) || (48 ≤ n && n ≤ 57) || n = 95

/-- Sinhala-block word characters of Python's `\w`: the letters
(category Lo: independent vowels U+0D85-U+0D96 and consonants
U+0D9A-U+0DB1, U+0DB3-U+0DBB, U+0DBD, U+0DC0-U+0DC6) and the lith
digits (Nd, U+0DE6-U+0DEF).  The combining marks (vowel signs,
al-lakuna, anusvaraya, visargaya — categories Mn/Mc) and the
kunddaliya (Po) are not word characters. -/
def isSinhalaWordChar (c : Char) : Bool :=
  let n := c.toNat
  (0x0D85 ≤ n && n ≤ 0x0D96) || (0x0D9A ≤ n && n ≤ 0x0DB1) ||
  (0x0DB3 ≤ n && n ≤ 0x0DBB) || n = 0x0DBD || (0x0DC0 ≤ n && n ≤ 0x0DC6) ||
  (0x0DE6 ≤ n && n ≤ 0x0DEF)

/-- Python `\w` over the program's character domain. -/
def pyIsWordChar (c : Char) : Bool :=
  isAsciiWordChar c || isSinhalaWordChar c

/-- Python `\d` over the program's character domain (the ASCII digits
`0`-`9` and the Sinhala lith digits, both category Nd). -/
def isPyDigit (c : Char) : Bool :=
  (48 ≤ c.toNat && c.toNat ≤ 57) || (0x0DE6 ≤ c.toNat && c.toNat ≤ 0x0DEF)

/-- An upper-case ASCII letter. -/
def isUpperAscii (c : Char) : Bool :=
  65 ≤ c.toNat && c.toNat ≤ 90

/-- No character of the list is an upper-case ASCII letter. -/
def noUpper (l : List Char) : Bool :=
  l.all (fun c => !isUpperAscii c)

/-- Python `str.lower()` on one character, over the program's character
domain (Sinhala characters are caseless). -/
def pyLowerChar (c : Char) : Char :=
  if 65 ≤ c.toNat && c.toNat ≤ 90 then Char.ofNat (c.toNat + 32) else c

/-- Python `str.lower()`. -/
def lowerList (s : List Char) : List Char :=
  s.map pyLowerChar

/-- Python's `in` operator on strings: `pat` occurs as a contiguous
substring of the second argument (the empty string occurs in anything). -/
def isSubstr (pat : List Char) : List Char → Bool
  | [] => pat.isEmpty
  | c :: cs => pat.isPrefixOf (c :: cs) || isSubstr pat cs

/-- Python `str.replace(key, val)`: replace every occurrence of `key`,
scanning left to right and continuing after each replacement.  (For an
empty `key` the program never calls this; we leave the string unchanged.) -/
def replaceAll (key val : List Char) : List Char → List Char
  | [] => []
  | c :: cs =>
    if h : key.length = 0 then c :: replaceAll key val cs
    else if key.isPrefixOf (c :: cs) then
      val ++ replaceAll key val (List.drop key.length (c :: cs))
    else c :: replaceAll key val cs
termination_by s => s.length
decreasing_by
  all_goals first
    | (simp [List.length_drop]; omega)
    | simp

/-- Python `str.split()` with no separator: split on whitespace runs,
returning only the non-empty tokens. -/
def pySplit : List Char → List (List Char)
  | [] => []
  | c :: cs =>
    if isPySpace c then pySplit cs
    else (c :: cs.takeWhile (fun d => !isPySpace d)) ::
      pySplit (cs.dropWhile (fun d => !isPySpace d))
termination_by s => s.length
decreasing_by
  · simp
  · have hle : ∀ (l : List Char), (l.dropWhile (fun d => !isPySpace d)).length ≤ l.length := by
      intro l
      induction l with
      | nil => simp [List.dropWhile]
      | cons a l ih =>
        rw [List.dropWhile]
        cases h : !isPySpace a
        · simp
        · simpa using Nat.le_succ_of_le ih
    have := hle cs
    simp; omega

/-- Python `str.strip()`: drop leading and trailing whitespace. -/
def pyStrip (s : List Char) : List Char :=
  ((s.dropWhile isPySpace).reverse.dropWhile isPySpace).reverse

/-- Python `sep.join(ws)`. -/
def joinSep (sep : List Char) : List (List Char) → List Char
  | [] => []
  | [w] => w
  | w :: ws => w ++ sep ++ joinSep sep ws

/-- The Python slice `xs[-m:]`: for `m = 0` this is `xs[0:]`, the whole
list; otherwise the last `m` elements (all of them when `m` exceeds the
length). -/
def pyLastSlice {α : Type} (m : Nat) (xs : List α) : List α :=
  if m = 0 then xs else xs.drop (xs.length - m)

/-- Shorthand building one dictionary entry from two string literals. -/
def ent (a b : String) : List Char × List Char :=
  (a.data, b.data)

/-- `SinhalaTransliterator.transliteration_map`, in insertion order. -/
def transliterationMap : List (List Char × List Char) :=
  [ent "accounting" "ගිණුම්කරණ", ent "ginumkarana" "ගිණුම්කරණ",
   ent "ginumkaranaya" "ගිණුම්කරණය", ent "standard" "ප්‍රමිතිය",
   ent "pramiithiya" "ප්‍රමිතිය", ent "financial" "මූල්‍ය",
   ent "moolya" "මූල්‍ය", ent "statement" "ප්‍රකාශනය",
   ent "prakashana" "ප්‍රකාශන", ent "prakashanaya" "ප්‍රකාශනය",
   ent "assets" "වත්කම්", ent "wathkam" "වත්කම්",
   ent "liabilities" "වගකීම්", ent "wagakeem" "වගකීම්",
   ent "equity" "හිමිකම", ent "himikam" "හිමිකම",
   ent "revenue" "ආදායම්", ent "aadayam" "ආදායම්",
   ent "income" "ආදායම්", ent "expenses" "වියදම්",
   ent "wiyadam" "වියදම්", ent "profit" "ලාභ",
   ent "labha" "ලාභ", ent "loss" "අලාභ",
   ent "alabha" "අලාභ", ent "inventory" "තොග",
   ent "thoga" "තොග", ent "depreciation" "ක්ෂය",
   ent "kshaya" "ක්ෂය", ent "provision" "ප්‍රතිපාදන",
   ent "prathipaadana" "ප්‍රතිපාදන", ent "cash" "මුදල්",
   ent "mudal" "මුදල්", ent "flow" "ප්‍රවාහ",
   ent "prawaha" "ප්‍රවාහ", ent "lease" "කල්බදු",
   ent "kalbadu" "කල්බදු", ent "customer" "ගනුදෙනුකරු",
   ent "ganudenukaraya" "ගනුදෙනුකරු", ent "carrying" "ධාරණ",
   ent "dharana" "ධාරණ", ent "value" "වටිනාකම",
   ent "watinaakama" "වටිනාකම", ent "cost" "පිරිවැය",
   ent "piriwaya" "පිරිවැය", ent "fair" "සාධාරණ",
   ent "saadarana" "සාධාරණ", ent "contract" "ගිවිසුම්",
   ent "giwisuma" "ගිවිසුම්", ent "performance" "කාර්යසාධන",
   ent "kaaryasadhana" "කාර්යසාධන", ent "obligation" "බැඳීම්",
   ent "baendeem" "බැඳීම්", ent "revaluation" "ප්‍රතයාගණන",
   ent "prathyaagana" "ප්‍රතයාගණන", ent "right" "අයිතිය",
   ent "ayithiya" "අයිතිය", ent "use" "භාවිත",
   ent "bhaawitha" "භාවිත", ent "property" "දේපළ",
   ent "depala" "දේපළ", ent "plant" "පිරියත",
   ent "piriyatha" "පිරියත", ent "equipment" "උපකරණ",
   ent "upakarana" "උපකරණ", ent "contingent" "අසම්භාව්‍ය",
   ent "asambhaawya" "අසම්භාව්‍ය",
   ent "what" "මොකක්ද", ent "mokakda" "මොකක්ද",
   ent "how" "කොහොමද", ent "kohomada" "කොහොමද",
   ent "when" "කවදාද", ent "kawadaada" "කවදාද",
   ent "where" "කොහේද", ent "koheda" "කොහේද",
   ent "why" "ඇයි", ent "ayee" "ඇයි",
   ent "which" "කුමන", ent "kumana" "කුමන",
   ent "lkas" "ශ්‍රී ලංකා ගිණුම්කරණ ප්‍රමිතිය",
   ent "slfrs" "ශ්‍රී ලංකා මූල්‍ය වාර්තාකරණ ප්‍රමිතිය"]

/-- `SinhalaTransliterator.phrase_map`, in insertion order. -/
def phraseMap : List (List Char × List Char) :=
  [ent "ginumkaranaya kohomada" "ගිණුම්කරණය කොහොමද",
   ent "moolya prakashana" "මූල්‍ය ප්‍රකාශන",
   ent "wathkam saha wagakeem" "වත්කම් සහ වගකීම්",
   ent "labha alaba prakashana" "ලාභ අලාභ ප්‍රකාශන",
   ent "mudal prawaha" "මුදල් ප්‍රවාහ",
   ent "himikam wenas weema" "හිමිකම වෙනස් වීම",
   ent "thoga watinaakama" "තොග වටිනාකම",
   ent "depala piriyatha upakarana" "දේපළ පිරියත උපකරණ",
   ent "kshaya kireema" "ක්ෂය කිරීම",
   ent "prathipaadana haduna gaaneema" "ප්‍රතිපාදන හඳුනා ගැනීම"]

/-- `SinhalaTransliterator._is_sinhala_text`: the count of Sinhala-block
characters over the count of `\w` characters exceeds one half, with the
zero denominator short-circuited by `total_chars > 0`. -/
def isSinhalaText (s : List Char) : Bool :=
  let sinhala : ℚ := ((s.filter isSinhalaChar).length : ℚ)
  let total : ℚ := ((s.filter pyIsWordChar).length : ℚ)
  decide (0 < total) && decide (sinhala / total > 1 / 2)

/-- `SinhalaTransliterator._find_partial_match`: the value of the first
dictionary entry whose key contains the token or is contained in it,
provided the token is longer than three characters; otherwise the token
itself. -/
def findPartialMatch (w : List Char) : List Char :=
  match transliterationMap.find?
      (fun e => (isSubstr w e.1 || isSubstr e.1 w) && decide (3 < w.length)) with
  | some e => e.2
  | none => w

/-- One iteration of the word pass of `process_query`: strip non-word
characters, try an exact dictionary match, then a partial match; a falsy
(empty) partial-match result falls back to the original token. -/
def translateWord (w : List Char) : List Char :=
  let cw := w.filter pyIsWordChar
  match transliterationMap.find? (fun e => decide (e.1 = cw)) with
  | some e => e.2
  | none =>
    let t := findPartialMatch cw
    if t ≠ [] then t else w

/-- The phrase pass of `process_query`: each phrase key found in the
query is replaced by its value, in dictionary order, cumulatively. -/
def phrasePass (s : List Char) : List Char :=
  phraseMap.foldl
    (fun cur e => if isSubstr e.1 cur then replaceAll e.1 e.2 cur else cur) s

/-- The candidate string `result` assembled by `process_query`: phrase
pass on the lower-cased query, whitespace split, word pass, and a
single-space join. -/
def candidateResult (q : List Char) : List Char :=
  joinSep [' '] ((pySplit (phrasePass (lowerList q))).map translateWord)

/-- `SinhalaTransliterator._translation_score`: zero when the candidate
equals the original verbatim or is empty, else the ratio of
Sinhala-block characters to total characters of the candidate. -/
def translationScore (orig trans : List Char) : ℚ :=
  if orig = trans then 0
  else
    let s : ℚ := ((trans.filter isSinhalaChar).length : ℚ)
    let t : ℚ := (trans.length : ℚ)
    if t = 0 then 0 else s / t

/-- `SinhalaTransliterator.process_query`. -/
def processQuery (q : List Char) : List Char :=
  if q = [] then q
  else if isSinhalaText q then q
  else
    let result := candidateResult q
    if translationScore q result > 3 / 10 then result else q

/-- The character class kept by `clean_text`: printable ASCII, the
Sinhala block, and `\n`, `\r`, `\t`. -/
def allowedChar (c : Char) : Bool :=
  (0x20 ≤ c.toNat && c.toNat ≤ 0x7E) || isSinhalaChar c ||
  c = '\n' || c = '\r' || c = '\t'

/-- `re.sub(r'\s+', ' ', text)`: collapse every whitespace run to one
space. -/
def collapseWs : List Char → List Char
  | [] => []
  | c :: cs =>
    if isPySpace c then ' ' :: collapseWs (cs.dropWhile isPySpace)
    else c :: collapseWs cs
termination_by s => s.length
decreasing_by
  · have hle : ∀ (l : List Char), (l.dropWhile isPySpace).length ≤ l.length := by
      intro l
      induction l with
      | nil => simp [List.dropWhile]
      | cons a l ih =>
        rw [List.dropWhile]
        cases h : isPySpace a
        · simp
        · simpa using Nat.le_succ_of_le ih
    have := hle cs
    simp; omega
  · simp

/-- The nine vowel-sign pairs of the "Fix common OCR errors" block.  In
the source each pair is byte-identical (the replacement equals the
pattern), so every one of these `str.replace` calls is an identity. -/
def ocrPairs : List Char :=
  ['ා', 'ී', 'ු', 'ූ', 'ෙ', 'ේ', 'ො', 'ෝ', 'ෞ']

/-- The OCR-fix block of `clean_text`. -/
def ocrFix (s : List Char) : List Char :=
  ocrPairs.foldl (fun cur c => replaceAll [c] [c] cur) s

/-- The literal part of the footer pattern `r'පිටුව \d+'`. -/
def footerPre : List Char := "පිටුව ".data

/-- `re.sub(r'පිටුව \d+', '', text)`: delete every match, scanning left
to right and continuing after each match (`\d+` is greedy and nothing
follows it, so the match takes the maximal digit run). -/
def removeFooter : List Char → List Char
  | [] => []
  | c :: cs =>
    if footerPre.isPrefixOf (c :: cs) then
      let rest := (c :: cs).drop footerPre.length
      let ds := rest.takeWhile isPyDigit
      if ds = [] then c :: removeFooter cs
      else removeFooter (rest.drop ds.length)
    else c :: removeFooter cs
termination_by s => s.length
decreasing_by
  all_goals simp_all [footerPre, List.length_drop]
  all_goals omega

/-- The leading literal of the marker pattern `r'--- පිටුව \d+ ---'`. -/
def markerPre : List Char := "--- පිටුව ".data

/-- The trailing literal of the marker pattern. -/
def markerSuf : List Char := " ---".data

/-- `re.sub(r'--- පිටුව \d+ ---', '\n', text)`: replace every match by a
newline.  Backtracking inside `\d+` can never help (the shortened match
would have to continue with a digit where the pattern wants a space), so
taking the maximal digit run is faithful. -/
def removeMarker : List Char → List Char
  | [] => []
  | c :: cs =>
    if markerPre.isPrefixOf (c :: cs) then
      let rest := (c :: cs).drop markerPre.length
      let ds := rest.takeWhile isPyDigit
      if ds = [] then c :: removeMarker cs
      else if markerSuf.isPrefixOf (rest.drop ds.length) then
        '\n' :: removeMarker ((rest.drop ds.length).drop markerSuf.length)
      else c :: removeMarker cs
    else c :: removeMarker cs
termination_by s => s.length
decreasing_by
  all_goals simp_all [markerPre, List.length_drop]
  all_goals omega

/-- `DocumentProcessor.clean_text`, step for step: collapse whitespace,
strip disallowed characters, OCR fixes, footer removal, marker removal,
final strip. -/
def cleanText (t : List Char) : List Char :=
  pyStrip (removeMarker (removeFooter (ocrFix ((collapseWs t).filter allowedChar))))

/-- The sentence delimiters of `create_chunks`: `re.split(r'[.!?។]')`
(the fourth character is U+17D4). -/
def isSentenceDelim (c : Char) : Bool :=
  c = '.' || c = '!' || c = '?' || c = '។'

/-- `re.split` on the delimiter class: the pieces between delimiters,
empty pieces included. -/
def splitOnDelims : List Char → List (List Char)
  | [] => [[]]
  | c :: cs =>
    if isSentenceDelim c then [] :: splitOnDelims cs
    else
      match splitOnDelims cs with
      | [] => [[c]]
      | w :: ws => (c :: w) :: ws

/-- The sentence list of `create_chunks`: split, strip each piece, keep
the non-empty ones. -/
def sentencesOf (t : List Char) : List (List Char) :=
  ((splitOnDelims t).map pyStrip).filter (fun s => !s.isEmpty)

/-- The loop state of `create_chunks`: the chunks emitted so far and the
running buffer `current_chunk`. -/
structure ChunkState where
  chunks : List (List Char)
  current : List Char
deriving DecidableEq

/-- One iteration of the packing loop of `create_chunks`.  Note the two
source quirks kept intact: the overflow test `len(current) +
len(sentence) > chunk_size` does not count the joining space, and the
overlap seed is the Python slice `words[-min(chunk_overlap // 10,
len(words)):]`, which is the whole word list when the minimum is zero. -/
def chunkStep (chunkSize chunkOverlap : Nat) (st : ChunkState) (s : List Char) :
    ChunkState :=
  if chunkSize < st.current.length + s.length then
    if st.current ≠ [] then
      let seeded :=
        if 0 < chunkOverlap then
          let words := pySplit st.current
          let ow := pyLastSlice (min (chunkOverlap / 10) words.length) words
          joinSep [' '] ow ++ [' '] ++ s
        else s
      ⟨st.chunks ++ [pyStrip st.current], seeded⟩
    else ⟨st.chunks, s⟩
  else ⟨st.chunks, if st.current = [] then s else st.current ++ [' '] ++ s⟩

/-- `create_chunks` before its final length filter: run the packing loop
and emit the last buffer if its stripped form is non-empty. -/
def createChunksRaw (chunkSize chunkOverlap : Nat) (t : List Char) :
    List (List Char) :=
  if t = [] then []
  else
    let st := (sentencesOf t).foldl (chunkStep chunkSize chunkOverlap) ⟨[], []⟩
    if pyStrip st.current ≠ [] then st.chunks ++ [pyStrip st.current]
    else st.chunks

/-- `DocumentProcessor.create_chunks`: the packing loop followed by the
filter dropping chunks of length at most fifty. -/
def createChunks (chunkSize chunkOverlap : Nat) (t : List Char) :
    List (List Char) :=
  (createChunksRaw chunkSize chunkOverlap t).filter (fun c => decide (50 < c.length))

/-!
Division-free evaluation twins.  The rational divisions of
`_is_sinhala_text` and `_translation_score` do not reduce inside the
kernel, so for computing concrete instances we use equivalents with the
comparisons cross-multiplied; the bridge lemmas below prove them equal
to the source-shaped definitions.
-/

/-- `_is_sinhala_text` with the ratio comparison cross-multiplied. -/
def isSinhalaTextN (s : List Char) : Bool :=
  let sc := (s.filter isSinhalaChar).length
  let wc := (s.filter pyIsWordChar).length
  decide (0 < wc) && decide (wc < 2 * sc)

/-- The acceptance decision `score > 0.3` of `process_query`, with the
score's division cross-multiplied. -/
def acceptScoreN (orig trans : List Char) : Bool :=
  decide (orig ≠ trans) && decide (trans.length ≠ 0) &&
    decide (3 * trans.length < 10 * (trans.filter isSinhalaChar).length)

/-- `process_query` rebuilt on the division-free decisions. -/
def processQueryN (q : List Char) : List Char :=
  if q = [] then q
  else if isSinhalaTextN q then q
  else if acceptScoreN q (candidateResult q) then candidateResult q else q

/-!
Fallibility-explicit variants.  Divisions are the only operations of the
two source files that could fail; each variant below returns `none`
exactly when a division with zero denominator would be evaluated, so
proving the variants equal to `some` of the plain functions shows every
division is reached only under its guard.
-/

/-- Rational division that reports a zero denominator. -/
def divQChecked (a b : ℚ) : Option ℚ :=
  if b = 0 then none else some (a / b)

/-- Natural division that reports a zero denominator. -/
def divNatChecked (a b : Nat) : Option Nat :=
  if b = 0 then none else some (a / b)

/-- `_is_sinhala_text` with its division made fallible; the
`total_chars > 0` conjunct short-circuits, so the division is evaluated
only under it. -/
def isSinhalaTextChecked (s : List Char) : Option Bool :=
  let sinhala : ℚ := ((s.filter isSinhalaChar).length : ℚ)
  let total : ℚ := ((s.filter pyIsWordChar).length : ℚ)
  if 0 < total then (divQChecked sinhala total).map (fun r => decide (r > 1 / 2))
  else some false

/-- `_translation_score` with its division made fallible; the source
guards it with `if total_chars == 0: return 0.0`. -/
def translationScoreChecked (orig trans : List Char) : Option ℚ :=
  if orig = trans then some 0
  else
    let s : ℚ := ((trans.filter isSinhalaChar).length : ℚ)
    let t : ℚ := (trans.length : ℚ)
    if t = 0 then some 0 else divQChecked s t

/-- `process_query` with every division made fallible. -/
def processQueryChecked (q : List Char) : Option (List Char) :=
  if q = [] then some q
  else do
    let native ← isSinhalaTextChecked q
    if native then some q
    else
      let result := candidateResult q
      let score ← translationScoreChecked q result
      if score > 3 / 10 then some result else some q

/-- The packing step with the `chunk_overlap // 10` division made
fallible. -/
def chunkStepChecked (chunkSize chunkOverlap : Nat) (st : ChunkState)
    (s : List Char) : Option ChunkState :=
  if chunkSize < st.current.length + s.length then
    if st.current ≠ [] then
      if 0 < chunkOverlap then
        (divNatChecked chunkOverlap 10).map (fun k =>
          let words := pySplit st.current
          let ow := pyLastSlice (min k words.length) words
          ⟨st.chunks ++ [pyStrip st.current], joinSep [' '] ow ++ [' '] ++ s⟩)
      else some ⟨st.chunks ++ [pyStrip st.current], s⟩
    else some ⟨st.chunks, s⟩
  else some ⟨st.chunks, if st.current = [] then s else st.current ++ [' '] ++ s⟩

/-- `create_chunks` with every division made fallible. -/
def createChunksChecked (chunkSize chunkOverlap : Nat) (t : List Char) :
    Option (List (List Char)) :=
  if t = [] then some []
  else do
    let st ← (sentencesOf t).foldlM (chunkStepChecked chunkSize chunkOverlap) ⟨[], []⟩
    let raw := if pyStrip st.current ≠ [] then st.chunks ++ [pyStrip st.current]
      else st.chunks
    some (raw.filter (fun c => decide (50 < c.length)))

unseal replaceAll pySplit collapseWs removeFooter removeMarker

theorem isSinhalaText_eq_N (s : List Char) :
    isSinhalaText s = isSinhalaTextN s := by
  unfold isSinhalaText isSinhalaTextN
  by_cases h : 0 < (s.filter pyIsWordChar).length
  · have hq : (0 : ℚ) < ((s.filter pyIsWordChar).length : ℚ) := by
      exact_mod_cast h
    simp only [decide_eq_true hq, decide_eq_true h, Bool.true_and]
    rw [decide_eq_decide, gt_iff_lt, div_lt_div_iff₀ (by norm_num) hq, one_mul,
      mul_comm]
    exact_mod_cast Iff.rfl
  · have h0 : (s.filter pyIsWordChar).length = 0 := by omega
    have hq : ¬ (0 : ℚ) < ((s.filter pyIsWordChar).length : ℚ) := by
      rw [h0]; norm_num
    simp [h0, hq]

theorem translationScore_gt_iff (orig trans : List Char) :
    (translationScore orig trans > 3 / 10) ↔ acceptScoreN orig trans = true := by
  unfold translationScore acceptScoreN
  by_cases h : orig = trans
  · simp [h]
    norm_num
  · by_cases h2 : trans.length = 0
    · have hq : ((trans.length : ℚ)) = 0 := by exact_mod_cast h2
      simp [h, h2, hq]
      norm_num
    · have hqpos : (0 : ℚ) < ((trans.length : ℚ)) := by
        exact_mod_cast Nat.pos_of_ne_zero h2
      have hq : ((trans.length : ℚ)) ≠ 0 := ne_of_gt hqpos
      have key : (3 : ℚ) / 10 <
          ((trans.filter isSinhalaChar).length : ℚ) / (trans.length : ℚ) ↔
          3 * trans.length < 10 * (trans.filter isSinhalaChar).length := by
        rw [div_lt_div_iff₀ (by norm_num) hqpos,
          mul_comm ((trans.filter isSinhalaChar).length : ℚ) 10]
        exact_mod_cast Iff.rfl
      simp [h, h2, hq, key]

theorem processQuery_eq_N (q : List Char) :
    processQuery q = processQueryN q := by
  unfold processQuery processQueryN
  rw [isSinhalaText_eq_N]
  by_cases h : q = []
  · simp [h]
  · by_cases h2 : isSinhalaTextN q
    · simp [h, h2]
    · simp only [h, if_false, h2]
      by_cases h3 : acceptScoreN q (candidateResult q)
      · rw [if_pos ((translationScore_gt_iff _ _).mpr h3), if_pos h3]
      · rw [if_neg (fun hc => h3 ((translationScore_gt_iff _ _).mp hc)),
          if_neg (fun hc => h3 hc)]

theorem isSinhalaTextChecked_eq (s : List Char) :
    isSinhalaTextChecked s = some (isSinhalaText s) := by
  unfold isSinhalaTextChecked isSinhalaText divQChecked
  by_cases h : (0 : ℚ) < ((s.filter pyIsWordChar).length : ℚ)
  · simp [h, ne_of_gt h]
  · simp [h]

theorem translationScoreChecked_eq (orig trans : List Char) :
    translationScoreChecked orig trans = some (translationScore orig trans) := by
  unfold translationScoreChecked translationScore divQChecked
  by_cases h : orig = trans
  · simp [h]
  · by_cases h2 : ((trans.length : ℚ)) = 0 <;> simp [h, h2]

theorem chunkStepChecked_eq (chunkSize chunkOverlap : Nat) (st : ChunkState)
    (s : List Char) :
    chunkStepChecked chunkSize chunkOverlap st s =
      some (chunkStep chunkSize chunkOverlap st s) := by
  unfold chunkStepChecked chunkStep divNatChecked
  by_cases h1 : chunkSize < st.current.length + s.length <;>
    by_cases h2 : st.current = [] <;>
      by_cases h3 : 0 < chunkOverlap <;> simp [h1, h2, h3]

theorem foldlM_option_eq {α β : Type} (f : β → α → Option β) (g : β → α → β)
    (hfg : ∀ b a, f b a = some (g b a)) :
    ∀ (L : List α) (b : β), L.foldlM f b = some (L.foldl g b) := by
  intro L
  induction L with
  | nil => intro b; rfl
  | cons a L ih =>
    intro b
    simp [List.foldlM, List.foldl, hfg b a, ih (g b a)]

/-- C9: `clean`, `chunk` and `normalize` are total.  The fallible
variants, in which every division of the two source files returns
`none` on a zero denominator, succeed on every input and agree with the
plain functions, so the native-script ratio and the confidence score
(and the `chunk_overlap // 10` divisor) are always guarded; `clean_text`
contains no division or other fallible operation at all. -/
theorem c9_totality (q : List Char) (chunkSize chunkOverlap : Nat) (t : List Char) :
    processQueryChecked q = some (processQuery q) ∧
    createChunksChecked chunkSize chunkOverlap t =
      some (createChunks chunkSize chunkOverlap t) := by
  constructor
  · unfold processQueryChecked processQuery
    by_cases h : q = []
    · simp [h]
    · simp only [h, if_false, isSinhalaTextChecked_eq, translationScoreChecked_eq,
        Option.bind_some, Option.some_bind]
      by_cases h2 : isSinhalaText q <;> simp [h2]
      split <;> rfl
  · unfold createChunksChecked createChunks createChunksRaw
    by_cases h : t = []
    · simp [h]
    · simp [h, foldlM_option_eq _ _ (chunkStepChecked_eq chunkSize chunkOverlap)]

/-- C3: every chunk returned by `create_chunks` has length strictly
greater than fifty, for every input and every configuration (the final
filter drops everything at most fifty characters long). -/
theorem c3_chunk_min_length (chunkSize chunkOverlap : Nat) (t : List Char) :
    (createChunks chunkSize chunkOverlap t).all
      (fun c => decide (50 < c.length)) = true := by
  unfold createChunks
  rw [List.all_eq_true]
  intro c hc
  simpa using (List.mem_filter.mp hc).2

/-- C6: `process_query` returns the query verbatim when it is empty, and
also whenever `_is_sinhala_text` holds of it. -/
theorem c6_native_verbatim (q : List Char)
    (h : q = [] ∨ isSinhalaText q = true) :
    processQuery q = q := by
  unfold processQuery
  rcases h with h | h
  · simp [h]
  · simp [h]

theorem c6_native_verbatim_witness :
    processQuery "ගිණුම්කරණය කොහොමද".data = "ගිණුම්කරණය කොහොමද".data :=
  c6_native_verbatim _ (Or.inr (by rw [isSinhalaText_eq_N]; decide))

/-- C4: for a non-empty, non-native query the result of `process_query`
is the assembled candidate exactly when the translation score — zero
when the candidate equals the original verbatim, else the ratio of
Sinhala-block characters to the candidate's length — exceeds `0.3`, and
is the original query otherwise. -/
theorem c4_confidence_gate (q : List Char) (h1 : q ≠ [])
    (h2 : isSinhalaText q = false) :
    processQuery q =
      (if translationScore q (candidateResult q) > 3 / 10 then candidateResult q
       else q) ∧
    (candidateResult q ≠ q →
      (processQuery q = candidateResult q ↔
        translationScore q (candidateResult q) > 3 / 10)) := by
  have hmain : processQuery q =
      if translationScore q (candidateResult q) > 3 / 10 then candidateResult q
      else q := by
    unfold processQuery
    simp [h1, h2]
  refine ⟨hmain, fun hne => ?_⟩
  by_cases hs : translationScore q (candidateResult q) > 3 / 10
  · simp [hmain, hs]
  · simp only [hmain, if_neg hs]
    constructor
    · intro hq
      exact (hne hq.symm).elim
    · intro hq
      exact (hs hq).elim

theorem c4_confidence_gate_witness :
    processQuery "hello world".data =
      (if translationScore "hello world".data
          (candidateResult "hello world".data) > 3 / 10
       then candidateResult "hello world".data else "hello world".data) ∧
    (candidateResult "hello world".data ≠ "hello world".data →
      (processQuery "hello world".data = candidateResult "hello world".data ↔
        translationScore "hello world".data
          (candidateResult "hello world".data) > 3 / 10)) :=
  c4_confidence_gate "hello world".data (by decide)
    (by rw [isSinhalaText_eq_N]; decide)

theorem length_dropWhile_le {α : Type} (p : α → Bool) (l : List α) :
    (l.dropWhile p).length ≤ l.length := by
  induction l with
  | nil => simp [List.dropWhile]
  | cons a l ih =>
    rw [List.dropWhile]
    cases hp : p a
    · simp
    · simpa using Nat.le_succ_of_le ih

theorem pyStrip_length_le (s : List Char) : (pyStrip s).length ≤ s.length := by
  unfold pyStrip
  rw [List.length_reverse]
  calc ((s.dropWhile isPySpace).reverse.dropWhile isPySpace).length
      ≤ (s.dropWhile isPySpace).reverse.length := length_dropWhile_le _ _
    _ = (s.dropWhile isPySpace).length := List.length_reverse _
    _ ≤ s.length := length_dropWhile_le _ _

theorem pyLastSlice_min_eq {α : Type} (k : Nat) (xs : List α) :
    pyLastSlice (min k xs.length) xs =
      if k = 0 then xs else xs.drop (xs.length - k) := by
  unfold pyLastSlice
  by_cases hk : k = 0
  · simp [hk]
  · by_cases hm : min k xs.length = 0
    · have hx : xs.length = 0 := by omega
      have hnil : xs = [] := List.length_eq_zero.mp hx
      simp [hm, hk, hnil]
    · rw [if_neg hm, if_neg hk]
      congr 1
      omega

/-- C1 fails on the code: with `chunkOverlap = 5` the quotient
`chunkOverlap // 10` is zero, so the claim predicts a seed of zero words
and a second chunk equal to the overflowing sentence alone; the code's
slice `words[-0:]` is the whole word list, so the second chunk repeats
the entire first chunk before the overflowing sentence. -/
theorem c1_counterexample :
    createChunks 60 5
        ("aaaaaaaaaaaaa bbbbbbbbbbbbb ccccccccccccc dddddddddddd" ++ "." ++
          "eeeeeeeeeeeee fffffffffffff ggggggggggggg hhhhhhhhhhhh").data =
      ["aaaaaaaaaaaaa bbbbbbbbbbbbb ccccccccccccc dddddddddddd".data,
        ("aaaaaaaaaaaaa bbbbbbbbbbbbb ccccccccccccc dddddddddddd" ++ " " ++
          "eeeeeeeeeeeee fffffffffffff ggggggggggggg hhhhhhhhhhhh").data] ∧
    ("aaaaaaaaaaaaa bbbbbbbbbbbbb ccccccccccccc dddddddddddd" ++ " " ++
        "eeeeeeeeeeeee fffffffffffff ggggggggggggg hhhhhhhhhhhh").data ≠
      "eeeeeeeeeeeee fffffffffffff ggggggggggggg hhhhhhhhhhhh".data := by
  constructor
  · decide
  · decide

/-- C1 (amended): when appending the next sentence would overflow a
non-empty buffer and `chunkOverlap > 0`, the buffer is emitted and the
next buffer is seeded with the last `min(chunkOverlap // 10, wordCount)`
words of the emitted buffer joined by single spaces, followed by one
space and the overflowing sentence, **except** that when
`chunkOverlap // 10 = 0` the Python slice `words[-0:]` makes the seed
the entire word list of the emitted buffer rather than zero words. -/
theorem c1_overlap_seed (chunkSize chunkOverlap : Nat) (st : ChunkState)
    (s : List Char) (hov : 0 < chunkOverlap) (hne : st.current ≠ [])
    (hfull : chunkSize < st.current.length + s.length) :
    (chunkStep chunkSize chunkOverlap st s).chunks =
      st.chunks ++ [pyStrip st.current] ∧
    (chunkStep chunkSize chunkOverlap st s).current =
      joinSep [' ']
          (if chunkOverlap / 10 = 0 then pySplit st.current
           else (pySplit st.current).drop
             ((pySplit st.current).length - chunkOverlap / 10)) ++
        [' '] ++ s := by
  unfold chunkStep
  rw [if_pos hfull, if_pos hne, if_pos hov]
  refine ⟨rfl, ?_⟩
  show joinSep [' ']
      (pyLastSlice (min (chunkOverlap / 10) (pySplit st.current).length)
        (pySplit st.current)) ++ [' '] ++ s = _
  rw [pyLastSlice_min_eq]

theorem c1_overlap_seed_witness :
    (chunkStep 60 5 ⟨[], "aaaa bbbb cccc".data⟩
        "ddddddddddddddddddddddddddddddddddddddddddddddddd".data).chunks =
      [] ++ [pyStrip "aaaa bbbb cccc".data] ∧
    (chunkStep 60 5 ⟨[], "aaaa bbbb cccc".data⟩
        "ddddddddddddddddddddddddddddddddddddddddddddddddd".data).current =
      joinSep [' ']
          (if 5 / 10 = 0 then pySplit "aaaa bbbb cccc".data
           else (pySplit "aaaa bbbb cccc".data).drop
             ((pySplit "aaaa bbbb cccc".data).length - 5 / 10)) ++
        [' '] ++ "ddddddddddddddddddddddddddddddddddddddddddddddddd".data :=
  c1_overlap_seed 60 5 ⟨[], "aaaa bbbb cccc".data⟩ _ (by decide) (by decide)
    (by decide)

theorem chunkStep_zero_bound (cs : Nat) (st : ChunkState) (s : List Char)
    (hs : s.length ≤ cs) (h1 : ∀ c ∈ st.chunks, c.length ≤ cs + 1)
    (h2 : st.current.length ≤ cs + 1) :
    (∀ c ∈ (chunkStep cs 0 st s).chunks, c.length ≤ cs + 1) ∧
      (chunkStep cs 0 st s).current.length ≤ cs + 1 := by
  unfold chunkStep
  by_cases hov : cs < st.current.length + s.length
  · rw [if_pos hov]
    by_cases hcur : st.current = []
    · rw [if_neg (not_not_intro hcur)]
      exact ⟨h1, le_trans hs (Nat.le_succ cs)⟩
    · rw [if_pos hcur]
      refine ⟨?_, ?_⟩
      · intro c hc
        rcases List.mem_append.mp hc with hc | hc
        · exact h1 c hc
        · rcases List.mem_singleton.mp hc with rfl
          exact le_trans (pyStrip_length_le _) h2
      · exact le_trans hs (Nat.le_succ cs)
  · rw [if_neg hov]
    refine ⟨h1, ?_⟩
    show (if st.current = [] then s else st.current ++ [' '] ++ s).length ≤ cs + 1
    by_cases hcur : st.current = []
    · rw [if_pos hcur]
      exact le_trans hs (Nat.le_succ cs)
    · rw [if_neg hcur]
      simp only [List.append_assoc, List.length_append, List.length_cons,
        List.length_nil]
      omega

theorem chunkFold_zero_bound (cs : Nat) (L : List (List Char)) :
    ∀ (st : ChunkState), (∀ s ∈ L, s.length ≤ cs) →
    (∀ c ∈ st.chunks, c.length ≤ cs + 1) → st.current.length ≤ cs + 1 →
    (∀ c ∈ (L.foldl (chunkStep cs 0) st).chunks, c.length ≤ cs + 1) ∧
      (L.foldl (chunkStep cs 0) st).current.length ≤ cs + 1 := by
  induction L with
  | nil => exact fun st _ h1 h2 => ⟨h1, h2⟩
  | cons s L ih =>
    intro st hL h1 h2
    rw [List.foldl_cons]
    have hstep := chunkStep_zero_bound cs st s (hL s (by simp)) h1 h2
    exact ih _ (fun x hx => hL x (by simp [hx])) hstep.1 hstep.2

theorem chunkStep_head_bound (cs co : Nat) (st : ChunkState) (s : List Char)
    (hs : s.length ≤ cs)
    (h1 : st.chunks = [] → st.current.length ≤ cs + 1)
    (h2 : ∀ c, st.chunks.head? = some c → c.length ≤ cs + 1) :
    ((chunkStep cs co st s).chunks = [] →
      (chunkStep cs co st s).current.length ≤ cs + 1) ∧
    (∀ c, (chunkStep cs co st s).chunks.head? = some c → c.length ≤ cs + 1) := by
  unfold chunkStep
  by_cases hov : cs < st.current.length + s.length
  · rw [if_pos hov]
    by_cases hcur : st.current = []
    · rw [if_neg (not_not_intro hcur)]
      exact ⟨fun _ => le_trans hs (Nat.le_succ cs), h2⟩
    · rw [if_pos hcur]
      constructor
      · intro hemp
        exact absurd hemp (by simp)
      · intro c hc
        cases hch : st.chunks with
        | nil =>
          rw [hch] at hc
          simp only [List.nil_append, List.head?_cons] at hc
          cases hc
          exact le_trans (pyStrip_length_le _) (h1 hch)
        | cons a l =>
          rw [hch] at hc
          simp only [List.cons_append, List.head?_cons] at hc
          cases hc
          exact h2 c (by rw [hch]; rfl)
  · rw [if_neg hov]
    refine ⟨?_, h2⟩
    intro hemp
    show (if st.current = [] then s else st.current ++ [' '] ++ s).length ≤ cs + 1
    by_cases hcur : st.current = []
    · rw [if_pos hcur]
      exact le_trans hs (Nat.le_succ cs)
    · rw [if_neg hcur]
      simp only [List.append_assoc, List.length_append, List.length_cons,
        List.length_nil]
      omega

theorem chunkFold_head_bound (cs co : Nat) (L : List (List Char)) :
    ∀ (st : ChunkState), (∀ s ∈ L, s.length ≤ cs) →
    (st.chunks = [] → st.current.length ≤ cs + 1) →
    (∀ c, st.chunks.head? = some c → c.length ≤ cs + 1) →
    ((L.foldl (chunkStep cs co) st).chunks = [] →
      (L.foldl (chunkStep cs co) st).current.length ≤ cs + 1) ∧
    (∀ c, (L.foldl (chunkStep cs co) st).chunks.head? = some c →
      c.length ≤ cs + 1) := by
  induction L with
  | nil => exact fun st _ h1 h2 => ⟨h1, h2⟩
  | cons s L ih =>
    intro st hL h1 h2
    rw [List.foldl_cons]
    have hstep := chunkStep_head_bound cs co st s (hL s (by simp)) h1 h2
    exact ih _ (fun x hx => hL x (by simp [hx])) hstep.1 hstep.2

/-- C2 fails on the code: the overflow test `len(current) +
len(sentence) > chunk_size` does not count the single space inserted by
the join, so a chunk can reach `chunkSize + 1` characters even with no
overlap seeding at all.  Two 30-character sentences pack into one
61-character chunk under `chunkSize = 60`, `chunkOverlap = 0`. -/
theorem c2_counterexample :
    sentencesOf ("aaaaaaaaaaaaaaaaaaaaaaaaaaaaaa" ++ "." ++
        "bbbbbbbbbbbbbbbbbbbbbbbbbbbbbb").data =
      ["aaaaaaaaaaaaaaaaaaaaaaaaaaaaaa".data,
        "bbbbbbbbbbbbbbbbbbbbbbbbbbbbbb".data] ∧
    "aaaaaaaaaaaaaaaaaaaaaaaaaaaaaa".data.length ≤ 60 ∧
    "bbbbbbbbbbbbbbbbbbbbbbbbbbbbbb".data.length ≤ 60 ∧
    (createChunks 60 0 ("aaaaaaaaaaaaaaaaaaaaaaaaaaaaaa" ++ "." ++
        "bbbbbbbbbbbbbbbbbbbbbbbbbbbbbb").data).map List.length = [61] := by
  refine ⟨by decide, by decide, by decide, by decide⟩

/-- C2 (amended): if no sentence of the input exceeds `chunkSize`, every
chunk produced with `chunkOverlap = 0`, and the first raw chunk for any
`chunkOverlap`, has length at most `chunkSize + 1` — one more than the
claim's bound, because the overflow test does not count the joining
space. -/
theorem c2_chunk_length_bound (cs : Nat) (t : List Char)
    (hsen : ∀ s ∈ sentencesOf t, s.length ≤ cs) :
    (∀ c ∈ createChunks cs 0 t, c.length ≤ cs + 1) ∧
    (∀ co : Nat, ∀ c, (createChunksRaw cs co t).head? = some c →
      c.length ≤ cs + 1) := by
  constructor
  · intro c hc
    unfold createChunks at hc
    have hraw := (List.mem_filter.mp hc).1
    unfold createChunksRaw at hraw
    by_cases ht : t = []
    · simp [ht] at hraw
    · rw [if_neg ht] at hraw
      have hfold := chunkFold_zero_bound cs (sentencesOf t) ⟨[], []⟩ hsen
        (by simp) (by simp)
      by_cases hcur :
          pyStrip ((sentencesOf t).foldl (chunkStep cs 0) ⟨[], []⟩).current ≠ []
      · rw [if_pos hcur] at hraw
        rcases List.mem_append.mp hraw with hm | hm
        · exact hfold.1 c hm
        · rcases List.mem_singleton.mp hm with rfl
          exact le_trans (pyStrip_length_le _) hfold.2
      · rw [if_neg hcur] at hraw
        exact hfold.1 c hraw
  · intro co c hc
    unfold createChunksRaw at hc
    by_cases ht : t = []
    · simp [ht] at hc
    · rw [if_neg ht] at hc
      have hfold := chunkFold_head_bound cs co (sentencesOf t) ⟨[], []⟩ hsen
        (by simp) (by simp)
      set st := (sentencesOf t).foldl (chunkStep cs co) ⟨[], []⟩ with hst
      by_cases hcur : pyStrip st.current ≠ []
      · rw [if_pos hcur] at hc
        cases hch : st.chunks with
        | nil =>
          rw [hch] at hc
          simp only [List.nil_append, List.head?_cons] at hc
          cases hc
          exact le_trans (pyStrip_length_le _) (hfold.1 hch)
        | cons a l =>
          rw [hch] at hc
          simp only [List.cons_append, List.head?_cons] at hc
          cases hc
          exact hfold.2 c (by rw [hch]; rfl)
      · rw [if_neg hcur] at hc
        exact hfold.2 c hc

theorem c2_chunk_length_bound_witness :
    ("aaaaaaaaaaaaaaaaaaaaaaaaaaaaaa" ++ " " ++
      "bbbbbbbbbbbbbbbbbbbbbbbbbbbbbb").data.length ≤ 60 + 1 :=
  (c2_chunk_length_bound 60
      ("aaaaaaaaaaaaaaaaaaaaaaaaaaaaaa" ++ "." ++
        "bbbbbbbbbbbbbbbbbbbbbbbbbbbbbb").data
      (by decide)).1 _ (by decide)

/-- C5 fails on the code: the phrase map does produce the claimed string
during the phrase pass, but `process_query` does not return it. -/
theorem c5_counterexample :
    phrasePass (lowerList "ginumkaranaya kohomada".data) =
      "ගිණුම්කරණය කොහොමද".data ∧
    processQuery "ginumkaranaya kohomada".data ≠ "ගිණුම්කරණය කොහොමද".data := by
  rw [processQuery_eq_N]
  decide

/-- C5 (amended): `normalize("ginumkaranaya kohomada")` returns
`"ගණමකරණය කහමද"`: the phrase substitution is applied and the result is
accepted by the confidence check, but the word pass strips every
combining mark — the vowel signs and the al-lakuna are not Python word
characters, so `re.sub(r'[^\w]', '', ...)` removes them — and the
phrase-map value does not survive the word pass intact. -/
theorem c5_amended :
    processQuery "ginumkaranaya kohomada".data = "ගණමකරණය කහමද".data := by
  rw [processQuery_eq_N]
  decide

/-- C7 fails on the code: a token consisting only of punctuation strips
to the empty string, which is falsy, so `translated if translated else
word` falls back to the original token with its punctuation preserved;
`"!!", reachable end to end, survives into the accepted result. -/
theorem c7_counterexample :
    "!!".data.filter pyIsWordChar = [] ∧
    translateWord "!!".data = "!!".data ∧
    processQuery "mudal prawaha !!".data = "මදල පරවහ !!".data := by
  refine ⟨by decide, by decide, ?_⟩
  rw [processQuery_eq_N]
  decide

/-- C7 (amended): a token with neither an exact dictionary match nor a
qualifying partial match is emitted with all non-word characters
stripped **when the stripped form is non-empty**; a token whose stripped
form is empty (pure punctuation) is emitted verbatim, punctuation
preserved, because the empty partial-match result is falsy. -/
theorem c7_word_pass (w : List Char)
    (hex : transliterationMap.find?
      (fun e => decide (e.1 = w.filter pyIsWordChar)) = none)
    (hpar : transliterationMap.find? (fun e =>
      (isSubstr (w.filter pyIsWordChar) e.1 ||
          isSubstr e.1 (w.filter pyIsWordChar)) &&
        decide (3 < (w.filter pyIsWordChar).length)) = none) :
    translateWord w =
      if w.filter pyIsWordChar = [] then w else w.filter pyIsWordChar := by
  simp only [translateWord, findPartialMatch, hex, hpar]
  by_cases hcw : w.filter pyIsWordChar = []
  · simp [hcw]
  · simp [hcw]

theorem c7_word_pass_witness :
    translateWord "zzzz!".data =
      (if "zzzz!".data.filter pyIsWordChar = [] then "zzzz!".data
       else "zzzz!".data.filter pyIsWordChar) :=
  c7_word_pass _ (by decide) (by decide)

theorem isUpperAscii_pyLowerChar (c : Char) :
    isUpperAscii (pyLowerChar c) = false := by
  unfold pyLowerChar isUpperAscii
  by_cases h : (65 ≤ c.toNat && c.toNat ≤ 90) = true
  · rw [if_pos h]
    simp only [Bool.and_eq_true, decide_eq_true_eq] at h
    have hval : c.toNat + 32 < 0xD800 := by omega
    have hv : (Char.ofNat (c.toNat + 32)).toNat = c.toNat + 32 := by
      unfold Char.ofNat
      rw [dif_pos (Or.inl hval)]
      rfl
    rw [hv]
    have hgt : ¬ (c.toNat + 32 ≤ 90) := by omega
    simp [hgt]
  · rw [if_neg h]
    simpa using h

theorem noUpper_iff (l : List Char) :
    noUpper l = true ↔ ∀ c ∈ l, isUpperAscii c = false := by
  unfold noUpper
  rw [List.all_eq_true]
  constructor
  · intro h c hc
    simpa using h c hc
  · intro h c hc
    simpa using h c hc

theorem noUpper_lowerList (q : List Char) : noUpper (lowerList q) = true := by
  rw [noUpper_iff]
  intro c hc
  rcases List.mem_map.mp hc with ⟨a, _, rfl⟩
  exact isUpperAscii_pyLowerChar a

theorem noUpper_of_subset {l₁ l₂ : List Char} (hsub : ∀ c ∈ l₁, c ∈ l₂)
    (h : noUpper l₂ = true) : noUpper l₁ = true := by
  rw [noUpper_iff] at h ⊢
  exact fun c hc => h c (hsub c hc)

theorem mem_replaceAll (key val : List Char) :
    ∀ (s : List Char) (c : Char), c ∈ replaceAll key val s → c ∈ val ∨ c ∈ s := by
  intro s
  induction s using replaceAll.induct key val with
  | case1 => intro c hc; rw [replaceAll] at hc; cases hc
  | case2 c cs hk ih =>
    intro x hx
    rw [replaceAll, dif_pos hk] at hx
    rcases List.mem_cons.mp hx with rfl | hx
    · exact Or.inr (List.mem_cons_self _ _)
    · rcases ih x hx with h | h
      · exact Or.inl h
      · exact Or.inr (List.mem_cons_of_mem _ h)
  | case3 c cs hk hpre ih =>
    intro x hx
    rw [replaceAll, dif_neg hk, if_pos hpre] at hx
    rcases List.mem_append.mp hx with h | h
    · exact Or.inl h
    · rcases ih x h with h2 | h2
      · exact Or.inl h2
      · exact Or.inr (List.mem_of_mem_drop h2)
  | case4 c cs hk hpre ih =>
    intro x hx
    rw [replaceAll, dif_neg hk, if_neg hpre] at hx
    rcases List.mem_cons.mp hx with rfl | hx
    · exact Or.inr (List.mem_cons_self _ _)
    · rcases ih x hx with h | h
      · exact Or.inl h
      · exact Or.inr (List.mem_cons_of_mem _ h)

theorem noUpper_replaceAll (key val s : List Char) (hv : noUpper val = true)
    (hs : noUpper s = true) : noUpper (replaceAll key val s) = true := by
  rw [noUpper_iff] at hv hs ⊢
  intro c hc
  rcases mem_replaceAll key val s c hc with h | h
  · exact hv c h
  · exact hs c h

theorem noUpper_phraseFold (ps : List (List Char × List Char))
    (hps : ∀ e ∈ ps, noUpper e.2 = true) :
    ∀ (s : List Char), noUpper s = true →
      noUpper (ps.foldl
        (fun cur e => if isSubstr e.1 cur then replaceAll e.1 e.2 cur else cur)
        s) = true := by
  induction ps with
  | nil => exact fun s hs => hs
  | cons e ps ih =>
    intro s hs
    rw [List.foldl_cons]
    apply ih (fun x hx => hps x (List.mem_cons_of_mem _ hx))
    by_cases he : isSubstr e.1 s
    · rw [if_pos he]
      exact noUpper_replaceAll _ _ _ (hps e (List.mem_cons_self _ _)) hs
    · rw [if_neg he]
      exact hs

theorem noUpper_phrasePass (s : List Char) (hs : noUpper s = true) :
    noUpper (phrasePass s) = true := by
  unfold phrasePass
  exact noUpper_phraseFold phraseMap (by decide) s hs

theorem mem_pySplit (w : List Char) :
    ∀ (s : List Char), w ∈ pySplit s → ∀ c ∈ w, c ∈ s := by
  intro s
  induction s using pySplit.induct with
  | case1 => intro hw; rw [pySplit] at hw; cases hw
  | case2 c cs hsp ih =>
    intro hw x hx
    rw [pySplit, if_pos hsp] at hw
    exact List.mem_cons_of_mem _ (ih hw x hx)
  | case3 c cs hsp ih =>
    intro hw x hx
    rw [pySplit, if_neg hsp] at hw
    rcases List.mem_cons.mp hw with rfl | hw
    · rcases List.mem_cons.mp hx with rfl | hx
      · exact List.mem_cons_self _ _
      · exact List.mem_cons_of_mem _
          ((List.takeWhile_prefix _).subset hx)
    · exact List.mem_cons_of_mem _
        ((List.dropWhile_suffix _).subset (ih hw x hx))

theorem noUpper_joinSep (sep : List Char) (hsep : noUpper sep = true) :
    ∀ (ws : List (List Char)), (∀ w ∈ ws, noUpper w = true) →
      noUpper (joinSep sep ws) = true := by
  intro ws
  induction ws with
  | nil => intro _; rw [joinSep]; decide
  | cons w ws ih =>
    intro hws
    cases ws with
    | nil =>
      rw [joinSep]
      exact hws w (List.mem_cons_self _ _)
    | cons w2 ws2 =>
      show noUpper (w ++ sep ++ joinSep sep (w2 :: ws2)) = true
      rw [noUpper_iff]
      intro c hc
      rcases List.mem_append.mp hc with hc | hc
      · rcases List.mem_append.mp hc with hc | hc
        · exact (noUpper_iff _).mp (hws w (List.mem_cons_self _ _)) c hc
        · exact (noUpper_iff _).mp hsep c hc
      · exact (noUpper_iff _).mp
          (ih (fun x hx => hws x (List.mem_cons_of_mem _ hx))) c hc

theorem noUpper_translateWord (w : List Char) (hw : noUpper w = true) :
    noUpper (translateWord w) = true := by
  have hvals : ∀ e ∈ transliterationMap, noUpper e.2 = true := by decide
  unfold translateWord
  cases hfind : transliterationMap.find?
      (fun e => decide (e.1 = w.filter pyIsWordChar)) with
  | some e =>
    simp only [hfind]
    exact hvals e (List.mem_of_find?_eq_some hfind)
  | none =>
    simp only [hfind]
    unfold findPartialMatch
    have hfil : noUpper (w.filter pyIsWordChar) = true :=
      noUpper_of_subset (fun c hc => List.mem_of_mem_filter hc) hw
    cases hfind2 : transliterationMap.find? (fun e =>
        (isSubstr (w.filter pyIsWordChar) e.1 ||
            isSubstr e.1 (w.filter pyIsWordChar)) &&
          decide (3 < (w.filter pyIsWordChar).length)) with
    | some e =>
      simp only [hfind2]
      by_cases he : e.2 ≠ []
      · rw [if_pos he]
        exact hvals e (List.mem_of_find?_eq_some hfind2)
      · rw [if_neg he]
        exact hw
    | none =>
      simp only [hfind2]
      by_cases hcw : w.filter pyIsWordChar ≠ []
      · rw [if_pos hcw]
        exact hfil
      · rw [if_neg hcw]
        exact hw

theorem noUpper_candidateResult (q : List Char) :
    noUpper (candidateResult q) = true := by
  unfold candidateResult
  apply noUpper_joinSep _ (by decide)
  intro w hw
  rcases List.mem_map.mp hw with ⟨w0, hw0, rfl⟩
  apply noUpper_translateWord
  apply noUpper_of_subset (mem_pySplit w0 _ hw0)
  exact noUpper_phrasePass _ (noUpper_lowerList q)

/-- C10: with the built-in dictionaries, whenever `process_query`
returns something other than the original query, the returned string
contains no upper-case ASCII letter: the candidate is assembled from the
lower-cased query and the dictionary values only. -/
theorem c10_no_uppercase (q : List Char) (h : processQuery q ≠ q) :
    noUpper (processQuery q) = true := by
  have hres : processQuery q = candidateResult q := by
    unfold processQuery at h ⊢
    by_cases h1 : q = []
    · simp [h1] at h
    · rw [if_neg h1] at h ⊢
      by_cases h2 : isSinhalaText q
      · simp [h2] at h
      · rw [if_neg h2] at h ⊢
        by_cases h3 : translationScore q (candidateResult q) > 3 / 10
        · rw [if_pos h3]
        · rw [if_neg h3] at h
          exact absurd rfl h
  rw [hres]
  exact noUpper_candidateResult q

theorem c10_no_uppercase_witness :
    noUpper (processQuery "mudal prawaha".data) = true :=
  c10_no_uppercase _ (by rw [processQuery_eq_N]; decide)

/-- C8 fails on the code: `clean_text` runs the footer removal
`re.sub(r'පිටුව \d+', '', ...)` before the marker collapse
`re.sub(r'--- පිටුව \d+ ---', '\n', ...)`, so the footer rule consumes
the `පිටුව <digits>` inside every page-boundary marker and the marker
rule never matches anything; the dashes survive as a `---  ---`
remnant instead of becoming a newline. -/
theorem c8_counterexample :
    cleanText "--- පිටුව 1 ---".data = "---  ---".data ∧
    '-' ∈ cleanText "--- පිටුව 1 ---".data := by
  refine ⟨by decide, by decide⟩

theorem replaceAll_self (key : List Char) :
    ∀ (s : List Char), replaceAll key key s = s := by
  intro s
  induction s using replaceAll.induct key key with
  | case1 => rw [replaceAll]
  | case2 c cs hk ih => rw [replaceAll, dif_pos hk, ih]
  | case3 c cs hk hpre ih =>
    rw [replaceAll, dif_neg hk, if_pos hpre, ih]
    rcases List.isPrefixOf_iff_prefix.mp hpre with ⟨t, ht⟩
    rw [← ht, List.drop_left]
  | case4 c cs hk hpre ih => rw [replaceAll, dif_neg hk, if_neg hpre, ih]

theorem ocrFix_id (s : List Char) : ocrFix s = s := by
  unfold ocrFix
  generalize ocrPairs = ps
  induction ps generalizing s with
  | nil => rfl
  | cons p ps ih => rw [List.foldl_cons, replaceAll_self, ih]

theorem isPySpace_of_digit (c : Char) (h : isPyDigit c = true) :
    isPySpace c = false := by
  unfold isPyDigit at h
  unfold isPySpace
  simp only [Bool.or_eq_true, Bool.and_eq_true, decide_eq_true_eq] at h
  have hch : 48 ≤ c.toNat := by
    rcases h with ⟨h1, _⟩ | ⟨h1, _⟩ <;> omega
  simp only [Bool.or_eq_false_iff, decide_eq_false_iff_not]
  refine ⟨⟨⟨⟨⟨?_, ?_⟩, ?_⟩, ?_⟩, ?_⟩, ?_⟩ <;>
    · intro hEq
      rw [hEq] at hch
      revert hch
      decide

theorem allowedChar_of_digit (c : Char) (h : isPyDigit c = true) :
    allowedChar c = true := by
  unfold isPyDigit at h
  unfold allowedChar isSinhalaChar
  simp only [Bool.or_eq_true, Bool.and_eq_true, decide_eq_true_eq] at h ⊢
  rcases h with ⟨h1, h2⟩ | ⟨h1, h2⟩
  · have hA : 32 ≤ c.toNat ∧ c.toNat ≤ 126 := ⟨by omega, by omega⟩
    tauto
  · have hS : 3456 ≤ c.toNat ∧ c.toNat ≤ 3583 := ⟨by omega, by omega⟩
    tauto

theorem collapseWs_cons_nonspace (c : Char) (l : List Char)
    (h : isPySpace c = false) : collapseWs (c :: l) = c :: collapseWs l := by
  rw [collapseWs, if_neg (by simp [h])]

theorem collapseWs_cons_space (l : List Char) :
    collapseWs (' ' :: l) = ' ' :: collapseWs (l.dropWhile isPySpace) := by
  rw [collapseWs, if_pos (by decide)]

theorem dropWhile_cons_nonspace (c : Char) (l : List Char)
    (h : isPySpace c = false) :
    List.dropWhile isPySpace (c :: l) = c :: l := by
  rw [List.dropWhile, h]

theorem collapseWs_nonspace_append (l₁ l₂ : List Char)
    (h : ∀ c ∈ l₁, isPySpace c = false) :
    collapseWs (l₁ ++ l₂) = l₁ ++ collapseWs l₂ := by
  induction l₁ with
  | nil => rfl
  | cons c cs ih =>
    rw [List.cons_append, collapseWs_cons_nonspace c _ (h c (by simp)),
      ih (fun x hx => h x (by simp [hx])), List.cons_append]

theorem filter_allowed_digits (l : List Char)
    (h : ∀ c ∈ l, isPyDigit c = true) : l.filter allowedChar = l := by
  induction l with
  | nil => rfl
  | cons c cs ih =>
    rw [List.filter_cons_of_pos (allowedChar_of_digit c (h c (by simp))),
      ih (fun x hx => h x (by simp [hx]))]

theorem takeWhile_digits (d rest : List Char)
    (hd : ∀ c ∈ d, isPyDigit c = true) :
    (d ++ ' ' :: rest).takeWhile isPyDigit = d := by
  induction d with
  | nil =>
    rw [List.nil_append, List.takeWhile_cons_of_neg (by decide)]
  | cons c cs ih =>
    rw [List.cons_append, List.takeWhile_cons_of_pos (hd c (by simp)),
      ih (fun x hx => hd x (by simp [hx]))]

theorem removeFooter_cons_nomatch (c : Char) (l : List Char)
    (h : footerPre.isPrefixOf (c :: l) = false) :
    removeFooter (c :: l) = c :: removeFooter l := by
  rw [removeFooter, if_neg (by simp [h])]

theorem removeFooter_marker_tail (c0 : Char) (d' : List Char)
    (hd : ∀ c ∈ c0 :: d', isPyDigit c = true) :
    removeFooter (footerPre ++ ((c0 :: d') ++ " ---".data)) = " ---".data := by
  have hpre : footerPre.isPrefixOf
      ('ප' :: ("ිටුව ".data ++ ((c0 :: d') ++ " ---".data))) = true :=
    List.isPrefixOf_iff_prefix.mpr
      (List.prefix_append footerPre ((c0 :: d') ++ " ---".data))
  rw [show footerPre ++ ((c0 :: d') ++ " ---".data) =
      'ප' :: ("ිටුව ".data ++ ((c0 :: d') ++ " ---".data)) from rfl]
  rw [removeFooter, if_pos hpre]
  dsimp only
  rw [show List.drop footerPre.length
        ('ප' :: (['ි', 'ට', 'ු', 'ව', ' '] ++ (c0 :: d' ++ ' ' :: "---".data))) =
      (c0 :: d') ++ (' ' :: "---".data) from rfl]
  rw [takeWhile_digits _ _ hd]
  rw [if_neg (by simp)]
  rw [List.drop_left]
  decide

theorem removeMarker_remnant : removeMarker "---  ---".data = "---  ---".data := by
  decide

/-- C8 (amended): on a page-boundary marker `--- පිටුව <digits> ---`,
`clean_text` removes the inner `පිටුව <digits>` footer — the footer rule
runs first and consumes it — and returns `---  ---`; the
marker-to-newline rule never fires, so a dash remnant of the marker
remains in the output. -/
theorem c8_marker_remnant (d : List Char) (hne : d ≠ [])
    (hd : ∀ c ∈ d, isPyDigit c = true) :
    cleanText ("--- පිටුව ".data ++ d ++ " ---".data) = "---  ---".data := by
  obtain ⟨c0, d', rfl⟩ := List.exists_cons_of_ne_nil hne
  have hdsp : ∀ c ∈ (c0 :: d'), isPySpace c = false :=
    fun c hc => isPySpace_of_digit c (hd c hc)
  have hcw : collapseWs ("--- පිටුව ".data ++ (c0 :: d') ++ " ---".data) =
      "--- පිටුව ".data ++ (c0 :: d') ++ " ---".data := by
    rw [show "--- පිටුව ".data ++ (c0 :: d') ++ " ---".data =
        '-' :: '-' :: '-' :: ' ' :: 'ප' :: 'ි' :: 'ට' :: 'ු' :: 'ව' :: ' ' ::
          ((c0 :: d') ++ " ---".data) from rfl]
    rw [collapseWs_cons_nonspace '-' _ rfl]
    rw [collapseWs_cons_nonspace '-' _ rfl]
    rw [collapseWs_cons_nonspace '-' _ rfl]
    rw [collapseWs_cons_space]
    rw [dropWhile_cons_nonspace 'ප' _ rfl]
    rw [collapseWs_cons_nonspace 'ප' _ rfl]
    rw [collapseWs_cons_nonspace 'ි' _ rfl]
    rw [collapseWs_cons_nonspace 'ට' _ rfl]
    rw [collapseWs_cons_nonspace 'ු' _ rfl]
    rw [collapseWs_cons_nonspace 'ව' _ rfl]
    rw [collapseWs_cons_space]
    rw [show ((c0 :: d') ++ " ---".data) = c0 :: (d' ++ " ---".data) from rfl]
    rw [dropWhile_cons_nonspace c0 _ (hdsp c0 (by simp))]
    rw [show c0 :: (d' ++ " ---".data) = (c0 :: d') ++ " ---".data from rfl]
    rw [collapseWs_nonspace_append (c0 :: d') _ hdsp]
    rw [show collapseWs " ---".data = " ---".data from by decide]
  have hfil : ("--- පිටුව ".data ++ (c0 :: d') ++ " ---".data).filter
      allowedChar = "--- පිටුව ".data ++ (c0 :: d') ++ " ---".data := by
    rw [List.filter_append, List.filter_append]
    rw [filter_allowed_digits (c0 :: d') hd]
    rw [show "--- පිටුව ".data.filter allowedChar = "--- පිටුව ".data
        from by decide]
    rw [show " ---".data.filter allowedChar = " ---".data from by decide]
  have hrf : removeFooter ("--- පිටුව ".data ++ (c0 :: d') ++ " ---".data) =
      "---  ---".data := by
    rw [show "--- පිටුව ".data ++ (c0 :: d') ++ " ---".data =
        '-' :: '-' :: '-' :: ' ' ::
          (footerPre ++ ((c0 :: d') ++ " ---".data)) from rfl]
    rw [removeFooter_cons_nomatch '-' _ rfl]
    rw [removeFooter_cons_nomatch '-' _ rfl]
    rw [removeFooter_cons_nomatch '-' _ rfl]
    rw [removeFooter_cons_nomatch ' ' _ rfl]
    rw [removeFooter_marker_tail c0 d' hd]
  unfold cleanText
  rw [hcw, hfil, ocrFix_id, hrf, removeMarker_remnant]
  decide

theorem c8_marker_remnant_witness :
    cleanText ("--- පිටුව ".data ++ "1".data ++ " ---".data) =
      "---  ---".data :=
  c8_marker_remnant "1".data (by decide) (by decide)

end SinhalaBot

